import Mathlib

/-!
# Verification of the `intervals` package

A shallow embedding of `src/intervals.go` (package `interval`): the interval
collection with its lazy-sort discipline, gap computation, overlap computation,
membership lookup and textual renderer, together with theorems settling the
specification's claims about them.

Go's `int` is modelled by `Int`; the sentinel constants `math.MaxInt64` and
`math.MinInt64` are kept as their literal values.
-/

namespace interval

/-- Modelled from the spec (§3): the `Interval` entity, declared outside `src/`,
is a pair of inclusive integer bounds `{low, high}` with no enforced invariant. -/
structure Interval where
  Low : Int
  High : Int
deriving DecidableEq

/-- Modelled from the spec (§4.5): the helper `inBetweenInclusive`, declared
outside `src/`, tests `low <= value <= high`, both ends inclusive. -/
def inBetweenInclusive (value low high : Int) : Bool :=
  decide (low ≤ value) && decide (value ≤ high)

/-- Modelled from the spec (§2, §3): the `ByLow` comparator, declared outside
`src/`, orders intervals by the `Low` bound only. -/
def leLow (a b : Interval) : Prop := a.Low ≤ b.Low

instance : DecidableRel leLow := fun a b => Int.decLe a.Low b.Low

instance : IsTotal Interval leLow := ⟨fun a b => Int.le_total a.Low b.Low⟩

instance : IsTrans Interval leLow := ⟨fun _ _ _ h1 h2 => le_trans h1 h2⟩

/-- Strict version of the `ByLow` order, used to reason about ties. -/
def ltLow (a b : Interval) : Prop := a.Low < b.Low

instance : DecidableRel ltLow := fun a b => Int.decLt a.Low b.Low

instance : IsAntisymm Interval ltLow :=
  ⟨fun _ _ h1 h2 => absurd (lt_trans h1 h2) (lt_irrefl _)⟩

/-- `sort.Sort(ByLow(intvls.Intervals))` from `Sort` (src/intervals.go:71):
reorder ascending by `Low`.  The relative order of intervals sharing a `Low`
bound is unspecified by the spec (§3); Go's standard sort runs plain insertion
sort at the slice lengths exercised here, which stable insertion sort
reproduces, so the model sorts with stable insertion sort by `Low`. -/
def sortByLow (l : List Interval) : List Interval := List.insertionSort leLow l

/-- The `intervals` struct (src/intervals.go:34-39). -/
structure intervals where
  Intervals : List Interval
  MinLow : Int
  MaxHigh : Int
  Sorted : Bool

/-- `defaultMinLow` (src/intervals.go:10). -/
def defaultMinLow : Int := 0

/-- `defaultMaxHigh = math.MaxInt64` (src/intervals.go:11). -/
def defaultMaxHigh : Int := 9223372036854775807

/-- `NewIntervals` (src/intervals.go:45-52). -/
def NewIntervals (minLow maxHigh : Int) : intervals :=
  { MinLow := minLow, MaxHigh := maxHigh, Intervals := [], Sorted := false }

/-- `NewIntervalsDefault` (src/intervals.go:41-43). -/
def NewIntervalsDefault : intervals := NewIntervals defaultMinLow defaultMaxHigh

/-- `Add` (src/intervals.go:54-57): append and invalidate the sorted flag. -/
def intervals.Add (c : intervals) (itvl : Interval) : intervals :=
  { c with Intervals := c.Intervals ++ [itvl], Sorted := false }

/-- The accumulation loop of `FindIntervalsForValue` (src/intervals.go:61-65). -/
def findLoop (value : Int) : List Interval → List Interval
  | [] => []
  | intvl :: rest =>
    (if inBetweenInclusive value intvl.Low intvl.High then [intvl] else []) ++ findLoop value rest

/-- `FindIntervalsForValue` (src/intervals.go:59-67); it never mutates the
collection, so the returned state is the receiver unchanged. -/
def intervals.FindIntervalsForValue (c : intervals) (value : Int) : List Interval × intervals :=
  (findLoop value c.Intervals, c)

/-- `Sort` (src/intervals.go:69-74): sort only when the flag is unset, then set
the flag unconditionally. -/
def intervals.Sort (c : intervals) : intervals :=
  { c with Intervals := if c.Sorted then c.Intervals else sortByLow c.Intervals, Sorted := true }

/-- Two's-complement wraparound of Go's 64-bit `int` arithmetic: the result of
an `int64` operation, reduced into `[-2^63, 2^63)`. -/
def wrapInt64 (x : Int) : Int :=
  (x + 9223372036854775808) % 18446744073709551616 - 9223372036854775808

/-- An integer representable as a Go `int64` value. -/
def int64Repr (x : Int) : Prop :=
  -9223372036854775808 ≤ x ∧ x ≤ 9223372036854775807

instance (x : Int) : Decidable (int64Repr x) := inferInstanceAs (Decidable (_ ∧ _))

/-- The cursor walk of `Gaps` (src/intervals.go:79-88), including the trailing
gap emitted when `lastHigh < maxHigh` after the walk.  The cursor update
`lastHigh = intvl.High + 1` and the gap bound `intvl.Low - 1` are Go `int64`
additions, so both wrap: at `intvl.High = math.MaxInt64` the cursor becomes
`math.MinInt64`. -/
def gapsLoop (maxHigh : Int) : Int → List Interval → List Interval
  | lastHigh, [] => if lastHigh < maxHigh then [{ Low := lastHigh, High := maxHigh }] else []
  | lastHigh, intvl :: rest =>
    (if intvl.Low > lastHigh then [{ Low := lastHigh, High := wrapInt64 (intvl.Low - 1) }]
      else []) ++
      gapsLoop maxHigh (wrapInt64 (intvl.High + 1)) rest

/-- `Gaps` (src/intervals.go:76-90): sort, then walk the cursor from `MinLow`. -/
def intervals.Gaps (c : intervals) : List Interval × intervals :=
  let c' := c.Sort
  (gapsLoop c'.MaxHigh c'.MinLow c'.Intervals, c')

/-- `if intvl.Low < lastMinLow { lastMinLow = intvl.Low }` (src/intervals.go:107-109). -/
def envLowUpdate (lastMinLow l : Int) : Int := if l < lastMinLow then l else lastMinLow

/-- `if intvl.High > lastMaxHigh { lastMaxHigh = intvl.High }` (src/intervals.go:110-112). -/
def envHighUpdate (lastMaxHigh h : Int) : Int := if h > lastMaxHigh then h else lastMaxHigh

/-- The envelope walk of `Overlapped` (src/intervals.go:97-113) for positions
`i > 0`: test the current interval against the accumulated envelope, emit the
intersection on success, then widen the envelope.  Go's helpers `max`/`min`
(declared outside `src/`) are the usual maximum and minimum. -/
def overlappedLoop : Int → Int → List Interval → List Interval
  | _, _, [] => []
  | lastMinLow, lastMaxHigh, intvl :: rest =>
    let lowInBetween := inBetweenInclusive lastMinLow intvl.Low intvl.High ||
      inBetweenInclusive intvl.Low lastMinLow lastMaxHigh
    let highInBetween := inBetweenInclusive lastMaxHigh intvl.Low intvl.High ||
      inBetweenInclusive intvl.High lastMinLow lastMaxHigh
    (if lowInBetween || highInBetween then
        [{ Low := max intvl.Low lastMinLow, High := min intvl.High lastMaxHigh }]
      else []) ++
      overlappedLoop (envLowUpdate lastMinLow intvl.Low) (envHighUpdate lastMaxHigh intvl.High) rest

/-- The full loop of `Overlapped` (src/intervals.go:95-113): the envelope starts
at the sentinels `math.MaxInt64` / `math.MinInt64`, position `0` only updates
the envelope (the `i > 0` guard), later positions run `overlappedLoop`. -/
def overlappedWalk : List Interval → List Interval
  | [] => []
  | first :: rest =>
    overlappedLoop (envLowUpdate 9223372036854775807 first.Low)
      (envHighUpdate (-9223372036854775808) first.High) rest

/-- `Overlapped` (src/intervals.go:92-115): sort, then walk the envelope. -/
def intervals.Overlapped (c : intervals) : List Interval × intervals :=
  let c' := c.Sort
  (overlappedWalk c'.Intervals, c')

/-- `isAnOverlap` (src/intervals.go:117-124). -/
def isAnOverlap (value : Int) : List Interval → Bool
  | [] => false
  | ovrlp :: rest => inBetweenInclusive value ovrlp.Low ovrlp.High || isAnOverlap value rest

/-- The fixed symbols of `Print` (src/intervals.go:130-133). -/
def emptySymbol : String := "◌"

/-- The full-coverage symbol of `Print` (src/intervals.go:131). -/
def fullSymbol : String := "◎"

/-- The overlap symbol of `Print` (src/intervals.go:132). -/
def overlapSymbol : String := "●"

/-- The block separator of `Print` (src/intervals.go:133). -/
def separator : String := "║"

/-- `fmt.Sprintf("[%d,%d]", x.Low, x.High)` (src/intervals.go:150,157,185). -/
def intervalText (x : Interval) : String :=
  "[" ++ toString x.Low ++ "," ++ toString x.High ++ "]"

/-- The comma-joined interval list pattern of `Print` (src/intervals.go:146-151,
153-157, 181-186): a `", "` before every element except the first. -/
def intervalListText : Bool → List Interval → String
  | _, [] => ""
  | isFirst, x :: rest =>
    ((if isFirst then "" else ", ") ++ intervalText x) ++ intervalListText false rest

/-- The inner empty-symbol loop of `Print` (src/intervals.go:158-165), unrolled
by its iteration count: emit the empty symbol, advance `index`, and emit the
separator whenever the advanced `index` is a multiple of 10 (Go's `index%10 == 0`
agrees with `Int.emod` on divisibility by 10 also at negative values).  Returns
the emitted text, the final `index`, and the number of separators emitted. -/
def graphEmptyLoop : Nat → Int → String × Int × Nat
  | 0, index => ("", index, 0)
  | n + 1, index =>
    let index' := index + 1
    let piece := emptySymbol ++ (if index' % 10 == 0 then separator else "")
    let sep : Nat := if index' % 10 == 0 then 1 else 0
    let r := graphEmptyLoop n index'
    (piece ++ r.1, r.2.1, sep + r.2.2)

/-- The inner covered-symbol loop of `Print` (src/intervals.go:167-178), unrolled
by its iteration count: emit the overlap symbol when the current `index` lies in
some overlap interval and the full symbol otherwise, advance `index`, and emit
the separator whenever the advanced `index` is a multiple of the block size 10. -/
def graphFullLoop (overlapped : List Interval) : Nat → Int → String × Int × Nat
  | 0, index => ("", index, 0)
  | n + 1, index =>
    let sym := if isAnOverlap index overlapped then overlapSymbol else fullSymbol
    let index' := index + 1
    let piece := sym ++ (if index' % 10 == 0 then separator else "")
    let sep : Nat := if index' % 10 == 0 then 1 else 0
    let r := graphFullLoop overlapped n index'
    (piece ++ r.1, r.2.1, sep + r.2.2)

/-- The per-item loop of `Print` (src/intervals.go:153-179), which builds the
interval list text and the graph in one pass: for each interval, append its
text (comma-separated), run the empty loop up to `intvl.Low` (its Go loop
condition `i < intvl.Low` runs `intvl.Low - index` times) and then the covered
loop through `intvl.High` (condition `i <= intvl.High` runs
`intvl.High + 1 - index` times).  Returns
`(intervalText, graph, index, numSeparators)`. -/
def printItemsLoop (overlapped : List Interval) : Bool → Int → List Interval →
    String × String × Int × Nat
  | _, index, [] => ("", "", index, 0)
  | isFirst, index, intvl :: rest =>
    let txt := (if isFirst then "" else ", ") ++ intervalText intvl
    let e := graphEmptyLoop (intvl.Low - index).toNat index
    let f := graphFullLoop overlapped (intvl.High + 1 - e.2.1).toNat e.2.1
    let r := printItemsLoop overlapped false f.2.1 rest
    (txt ++ r.1, e.1 ++ f.1 ++ r.2.1, r.2.2.1, e.2.2 + f.2.2 + r.2.2.2)

/-- The graph-building effect of the per-item loop of `Print`
(src/intervals.go:153-179) in isolation: the same empty and covered inner loops
as `printItemsLoop`, without the interval list text accumulated alongside.
Returns `(graph, index, numSeparators)`. -/
def graphWalk (overlapped : List Interval) : List Interval → Int → String × Int × Nat
  | [], index => ("", index, 0)
  | intvl :: rest, index =>
    let e := graphEmptyLoop (intvl.Low - index).toNat index
    let f := graphFullLoop overlapped (intvl.High + 1 - e.2.1).toNat e.2.1
    let r := graphWalk overlapped rest f.2.1
    (e.1 ++ f.1 ++ r.1, r.2.1, e.2.2 + f.2.2 + r.2.2)

/-- `n` copies of a string, for the trailing pad loop (src/intervals.go:188-190)
and the axis padding loop (src/intervals.go:192-194), each of which appends one
fixed string per iteration. -/
def stringRepeat (s : String) : Nat → String
  | 0 => ""
  | n + 1 => s ++ stringRepeat s n

/-- `Print` (src/intervals.go:126-198): sort; compute the overlap list; build
the interval text and graph in one pass over the items; compute the gap list;
pad the graph with empty symbols up to `MaxHigh` (loop condition
`i < MaxHigh`, `index` not advanced); build the axis legend with `MinLow` on
the left, `MaxHigh + numSeparators - 2 - MinLow` spaces, and `MaxHigh` on the
right; assemble the final text with the axis line above the framed graph line. -/
def intervals.Print (c : intervals) : String × intervals :=
  let c' := c.Sort
  let introText := "\n==================================\n SUMMARY (minLow=" ++ toString c'.MinLow ++
    ", maxHigh=" ++ toString c'.MaxHigh ++ ")\n=================================="
  let legend := "\n • Legend: " ++ emptySymbol ++ " (empty), " ++ fullSymbol ++ " (full), " ++
    overlapSymbol ++ " (overlap)"
  let overlapped := (c'.Overlapped).1
  let overlapText := "\n • Overlapped: " ++ intervalListText true overlapped
  let w := printItemsLoop overlapped true c'.MinLow c'.Intervals
  let intervalsText := "\n • Intervals: " ++ w.1
  let gaps := (c'.Gaps).1
  let gapsText := "\n • Gaps: " ++ intervalListText true gaps
  let index := w.2.2.1
  let numSeparators := w.2.2.2
  let graph := w.2.1 ++ stringRepeat emptySymbol (c'.MaxHigh - index).toNat
  let axisLegend := " " ++ toString c'.MinLow ++
    stringRepeat " " (c'.MaxHigh + (numSeparators : Int) - 2 - c'.MinLow).toNat ++
    toString c'.MaxHigh
  let graphText := "\n\n" ++ axisLegend ++ "\n╠" ++ graph ++ "╣"
  ("\n" ++ introText ++ legend ++ intervalsText ++ gapsText ++ overlapText ++ graphText ++ "\n",
    c')

/-- Collection states constructible through the package's exported surface:
the constructors and the methods, each of which may mutate the state. -/
inductive Reachable : intervals → Prop
  | new (minLow maxHigh : Int) : Reachable (NewIntervals minLow maxHigh)
  | newDefault : Reachable NewIntervalsDefault
  | add (c : intervals) (itvl : Interval) : Reachable c → Reachable (c.Add itvl)
  | sort (c : intervals) : Reachable c → Reachable c.Sort
  | gaps (c : intervals) : Reachable c → Reachable (c.Gaps).2
  | overlapped (c : intervals) : Reachable c → Reachable (c.Overlapped).2
  | find (c : intervals) (value : Int) : Reachable c → Reachable (c.FindIntervalsForValue value).2
  | print (c : intervals) : Reachable c → Reachable (c.Print).2

/-- A point of the closed range represented by an interval. -/
def containsPt (i : Interval) (p : Int) : Prop := i.Low ≤ p ∧ p ≤ i.High

instance (i : Interval) (p : Int) : Decidable (containsPt i p) :=
  inferInstanceAs (Decidable (_ ∧ _))

/-- How many intervals of a list cover a given point. -/
def coverCount (l : List Interval) (p : Int) : Nat :=
  l.countP (fun i => inBetweenInclusive p i.Low i.High)

/-- An interval is well formed when its bounds are not inverted. -/
def wellFormed (i : Interval) : Prop := i.Low ≤ i.High

instance (i : Interval) : Decidable (wellFormed i) := Int.decLe i.Low i.High

/-- Two intervals overlap when they share a point. -/
def overlapsI (a b : Interval) : Prop := ∃ p : Int, containsPt a p ∧ containsPt b p

/-- One of two intervals is nested inside the other. -/
def nestedI (a b : Interval) : Prop :=
  (a.Low ≤ b.Low ∧ b.High ≤ a.High) ∨ (b.Low ≤ a.Low ∧ a.High ≤ b.High)

instance (a b : Interval) : Decidable (nestedI a b) :=
  inferInstanceAs (Decidable (_ ∨ _))

/-- The value of the `lastHigh` cursor after the walk of `Gaps`
(src/intervals.go:79-85), with the same wrapping `int64` increment as the
walk itself. -/
def finalCursor : Int → List Interval → Int
  | lastHigh, [] => lastHigh
  | _, intvl :: rest => finalCursor (wrapInt64 (intvl.High + 1)) rest

/-- A collection built by adding the given intervals, in list order, to a fresh
collection with the given domain bounds. -/
def buildFrom (minLow maxHigh : Int) (l : List Interval) : intervals :=
  l.foldl intervals.Add (NewIntervals minLow maxHigh)

/-- The lines of a rendered text: split at every newline character. -/
def splitLines : List Char → List (List Char)
  | [] => [[]]
  | c :: rest =>
    if c = '\n' then [] :: splitLines rest
    else
      match splitLines rest with
      | [] => [[c]]
      | h :: t => (c :: h) :: t

/-- Line `s` appears strictly before line `t` in the rendered text `out`. -/
def lineBefore (out : String) (s t : String) : Prop :=
  ∃ i : Fin (splitLines out.data).length, ∃ j : Fin (splitLines out.data).length,
    i < j ∧ (splitLines out.data).get i = s.data ∧ (splitLines out.data).get j = t.data

instance (out s t : String) : Decidable (lineBefore out s t) :=
  inferInstanceAs (Decidable (∃ _, ∃ _, _ ∧ _ ∧ _))

end interval

namespace interval

/-- C2: end-to-end scenario on domain `[0,40]` with intervals `[5,10]`,
`[8,15]`, `[30,35]` added in that order: the sorted order is
`[5,10],[8,15],[30,35]`; `Gaps()` returns exactly `[0,4],[16,29],[36,40]` in
that order; `Overlapped()` returns exactly `[8,10]`; the envelope walk emits
`[8,10]` when processing `[8,15]` against the envelope `[5,10]` and emits
nothing for `[30,35]` against the envelope `[5,15]`. -/
theorem C2_end_to_end :
    ((((NewIntervals 0 40).Add ⟨5,10⟩).Add ⟨8,15⟩).Add ⟨30,35⟩).Sort.Intervals =
      [⟨5,10⟩, ⟨8,15⟩, ⟨30,35⟩] ∧
    (((((NewIntervals 0 40).Add ⟨5,10⟩).Add ⟨8,15⟩).Add ⟨30,35⟩).Gaps).1 =
      [⟨0,4⟩, ⟨16,29⟩, ⟨36,40⟩] ∧
    (((((NewIntervals 0 40).Add ⟨5,10⟩).Add ⟨8,15⟩).Add ⟨30,35⟩).Overlapped).1 = [⟨8,10⟩] ∧
    overlappedLoop 5 10 [⟨8,15⟩, ⟨30,35⟩] = [⟨8,10⟩] ∧
    overlappedLoop 5 15 [⟨30,35⟩] = [] := by
  decide

/-- C3: on domain `[0,20]` with `[0,10]` then `[2,3]` added in that order,
`Gaps()` returns exactly `[[4,20]]`: the cursor is unconditionally reassigned
to `3 + 1 = 4` after the nested interval `[2,3]`, so the emitted gap's low
bound is `4` even though `[4,10]` is covered by `[0,10]`. -/
theorem C3_nesting_regression :
    ((((NewIntervals 0 20).Add ⟨0,10⟩).Add ⟨2,3⟩).Gaps).1 = [⟨4,20⟩] ∧
    ∃ g ∈ ((((NewIntervals 0 20).Add ⟨0,10⟩).Add ⟨2,3⟩).Gaps).1, g.Low = 4 := by
  refine ⟨by decide, ⟨4,20⟩, by decide, rfl⟩

/-- C1 counterexample, in three parts, each a singleton collection on domain
`[0,10]` that satisfies the claim's pairwise hypotheses trivially.  First, the
well-formed interval `[0,9]`: the cursor lands exactly on `maxHigh`, the
trailing-gap test `lastHigh < maxHigh` fails, and the domain point `10` is
covered by nothing — a hole.  Second, the malformed interval `[5,3]`: the
walk emits the gaps `[0,4]` and `[4,10]`, so the domain point `4` is covered
twice — forcing the amended claim's `low <= high` hypothesis.  Third, the
well-formed interval `[0, math.MaxInt64]`: Go's `int64` cursor
`lastHigh = high + 1` wraps to `math.MinInt64`, the trailing test
`MinInt64 < 10` succeeds and emits the gap `[MinInt64, 10]`, so the domain
point `5` is covered twice (by the interval and by the gap) even though the
final cursor differs from `maxHigh` — forcing the amended claim's
`high ≠ MaxInt64` hypothesis. -/
theorem C1_counterexample :
    ((∀ i ∈ ((NewIntervals 0 10).Add ⟨0,9⟩).Intervals, wellFormed i) ∧
      ((NewIntervals 0 10).Add ⟨0,9⟩).Intervals.Pairwise
        (fun a b => ¬ overlapsI a b ∧ ¬ nestedI a b) ∧
      (0 : Int) ≤ 10 ∧ (10 : Int) ≤ 10 ∧
      coverCount ((((NewIntervals 0 10).Add ⟨0,9⟩).Gaps).2.Intervals ++
        (((NewIntervals 0 10).Add ⟨0,9⟩).Gaps).1) 10 = 0) ∧
    (((NewIntervals 0 10).Add ⟨5,3⟩).Intervals.Pairwise
        (fun a b => ¬ overlapsI a b ∧ ¬ nestedI a b) ∧
      (0 : Int) ≤ 4 ∧ (4 : Int) ≤ 10 ∧
      coverCount ((((NewIntervals 0 10).Add ⟨5,3⟩).Gaps).2.Intervals ++
        (((NewIntervals 0 10).Add ⟨5,3⟩).Gaps).1) 4 = 2) ∧
    ((∀ i ∈ ((NewIntervals 0 10).Add ⟨0,9223372036854775807⟩).Intervals, wellFormed i) ∧
      ((NewIntervals 0 10).Add ⟨0,9223372036854775807⟩).Intervals.Pairwise
        (fun a b => ¬ overlapsI a b ∧ ¬ nestedI a b) ∧
      finalCursor 0 ((((NewIntervals 0 10).Add ⟨0,9223372036854775807⟩)).Sort).Intervals =
        -9223372036854775808 ∧
      finalCursor 0 ((((NewIntervals 0 10).Add ⟨0,9223372036854775807⟩)).Sort).Intervals ≠ 10 ∧
      (0 : Int) ≤ 5 ∧ (5 : Int) ≤ 10 ∧
      coverCount ((((NewIntervals 0 10).Add ⟨0,9223372036854775807⟩).Gaps).2.Intervals ++
        (((NewIntervals 0 10).Add ⟨0,9223372036854775807⟩).Gaps).1) 5 = 2) := by
  refine ⟨⟨?_, ?_, by decide, by decide, by decide⟩,
    ⟨?_, by decide, by decide, by decide⟩,
    ⟨?_, ?_, by decide, by decide, by decide, by decide, by decide⟩⟩
  · intro i hi
    simp only [intervals.Add, NewIntervals, List.nil_append, List.mem_singleton] at hi
    subst hi
    decide
  · simp [intervals.Add, NewIntervals]
  · simp [intervals.Add, NewIntervals]
  · intro i hi
    simp only [intervals.Add, NewIntervals, List.nil_append, List.mem_singleton] at hi
    subst hi
    decide
  · simp [intervals.Add, NewIntervals]

set_option maxRecDepth 20000 in
/-- C4 counterexample: the collections on domain `[0,25]` built by adding the
same two intervals `[5,10]` and `[5,20]` in the two possible orders hold the
same multiset of intervals, yet `Print()` differs: the comparator orders by
`Low` only, both orders are already sorted, and the rendered interval list
reads `[5,10], [5,20]` in one output and `[5,20], [5,10]` in the other. -/
theorem C4_counterexample :
    (((NewIntervals 0 25).Add ⟨5,10⟩).Add ⟨5,20⟩).Intervals.Perm
      (((NewIntervals 0 25).Add ⟨5,20⟩).Add ⟨5,10⟩).Intervals ∧
    (((NewIntervals 0 25).Add ⟨5,10⟩).Add ⟨5,20⟩).MinLow =
      (((NewIntervals 0 25).Add ⟨5,20⟩).Add ⟨5,10⟩).MinLow ∧
    (((NewIntervals 0 25).Add ⟨5,10⟩).Add ⟨5,20⟩).MaxHigh =
      (((NewIntervals 0 25).Add ⟨5,20⟩).Add ⟨5,10⟩).MaxHigh ∧
    ((((NewIntervals 0 25).Add ⟨5,10⟩).Add ⟨5,20⟩).Print).1 ≠
      ((((NewIntervals 0 25).Add ⟨5,20⟩).Add ⟨5,10⟩).Print).1 := by
  refine ⟨by decide, by decide, by decide, ?_⟩
  decide

set_option maxRecDepth 20000 in
/-- C5 counterexample: in the text rendered for the empty collection on domain
`[0,5]`, the axis line `" 0   5"` appears strictly before the framed graph line
`"╠◌◌◌◌◌╣"`, and not after it as the claim states: `Print` assembles
`"\n\n" ++ axisLegend ++ "\n╠" ++ graph ++ "╣"`, placing the axis above the
graph. -/
theorem C5_counterexample :
    ¬ lineBefore (((NewIntervals 0 5).Print).1) "╠◌◌◌◌◌╣" " 0   5" ∧
    lineBefore (((NewIntervals 0 5).Print).1) " 0   5" "╠◌◌◌◌◌╣" := by
  decide

end interval

namespace interval

theorem sort_intervals_perm (c : intervals) : ((c.Sort).Intervals).Perm c.Intervals := by
  by_cases hs : c.Sorted = true
  · simp [intervals.Sort, hs]
  · simp only [intervals.Sort, Bool.not_eq_true] at hs ⊢
    rw [hs]
    simpa [sortByLow] using List.perm_insertionSort leLow c.Intervals

theorem reachable_sorted_invariant {c : intervals} (h : Reachable c) :
    c.Sorted = true → List.Sorted leLow c.Intervals := by
  induction h with
  | new minLow maxHigh => simp [NewIntervals]
  | newDefault => simp [NewIntervalsDefault, NewIntervals]
  | add c itvl _ _ => simp [intervals.Add]
  | sort c _ ih =>
    intro _
    by_cases hs : c.Sorted = true
    · simpa [intervals.Sort, hs] using ih hs
    · simp only [Bool.not_eq_true] at hs
      simp only [intervals.Sort, hs, if_false, sortByLow]
      exact List.sorted_insertionSort leLow c.Intervals
  | gaps c _ ih =>
    intro _
    by_cases hs : c.Sorted = true
    · simpa [intervals.Gaps, intervals.Sort, hs] using ih hs
    · simp only [Bool.not_eq_true] at hs
      simp only [intervals.Gaps, intervals.Sort, hs, if_false, sortByLow]
      exact List.sorted_insertionSort leLow c.Intervals
  | overlapped c _ ih =>
    intro _
    by_cases hs : c.Sorted = true
    · simpa [intervals.Overlapped, intervals.Sort, hs] using ih hs
    · simp only [Bool.not_eq_true] at hs
      simp only [intervals.Overlapped, intervals.Sort, hs, if_false, sortByLow]
      exact List.sorted_insertionSort leLow c.Intervals
  | find c value _ ih => exact ih
  | print c _ ih =>
    intro _
    by_cases hs : c.Sorted = true
    · simpa [intervals.Print, intervals.Sort, hs] using ih hs
    · simp only [Bool.not_eq_true] at hs
      simp only [intervals.Print, intervals.Sort, hs, if_false, sortByLow]
      exact List.sorted_insertionSort leLow c.Intervals

theorem reachable_sort_sorted {c : intervals} (h : Reachable c) :
    List.Sorted leLow ((c.Sort).Intervals) :=
  reachable_sorted_invariant (Reachable.sort c h) rfl

theorem findLoop_eq_filter (value : Int) (l : List Interval) :
    findLoop value l =
      l.filter (fun i => decide (i.Low ≤ value) && decide (value ≤ i.High)) := by
  induction l with
  | nil => rfl
  | cons a rest ih =>
    by_cases hc : inBetweenInclusive value a.Low a.High
    · have hc' : (decide (a.Low ≤ value) && decide (value ≤ a.High)) = true := hc
      simp [findLoop, hc, List.filter_cons, hc', ih]
    · have hc' : (decide (a.Low ≤ value) && decide (value ≤ a.High)) = false := by
        simpa [inBetweenInclusive] using hc
      simp [findLoop, hc, List.filter_cons, hc', ih, inBetweenInclusive]

/-- C8: `FindIntervalsForValue(value)` returns exactly the intervals of `items`
satisfying `low <= value <= high` (both bounds inclusive) in encounter order —
it equals a filter of `items` — and leaves the collection untouched (no sort is
triggered); in particular, for a collection holding `[3,7]` the values `3` and
`7` match, the values `2` and `8` do not, and the result is empty when nothing
matches. -/
theorem C8_find_intervals_for_value :
    (∀ (c : intervals) (value : Int),
      (c.FindIntervalsForValue value).1 =
        c.Intervals.filter (fun i => decide (i.Low ≤ value) && decide (value ≤ i.High)) ∧
      (c.FindIntervalsForValue value).2 = c) ∧
    ((((NewIntervals 0 10).Add ⟨3,7⟩).FindIntervalsForValue 3).1 = [⟨3,7⟩] ∧
      (((NewIntervals 0 10).Add ⟨3,7⟩).FindIntervalsForValue 7).1 = [⟨3,7⟩] ∧
      (((NewIntervals 0 10).Add ⟨3,7⟩).FindIntervalsForValue 2).1 = [] ∧
      (((NewIntervals 0 10).Add ⟨3,7⟩).FindIntervalsForValue 8).1 = []) := by
  refine ⟨fun c value => ⟨findLoop_eq_filter value c.Intervals, rfl⟩, by decide, by decide,
    by decide, by decide⟩

/-- C9: `Overlapped()` returns the empty sequence on every collection holding
zero intervals or exactly one interval, whatever the interval's bounds and the
domain bounds: the emission loop skips position `0`. -/
theorem C9_overlapped_small (c : intervals) (h : c.Intervals.length ≤ 1) :
    (c.Overlapped).1 = [] := by
  match hl : c.Intervals with
  | [] =>
    by_cases hs : c.Sorted = true <;>
      simp [intervals.Overlapped, intervals.Sort, hl, sortByLow, overlappedWalk, hs]
  | [x] =>
    by_cases hs : c.Sorted = true <;>
      simp [intervals.Overlapped, intervals.Sort, hl, sortByLow, overlappedWalk,
        overlappedLoop, hs]
  | x :: y :: rest => simp [hl] at h

/-- C9 witness: the singleton collection `[[7,2]]` on domain `[0,5]` (a
malformed interval, stressing "regardless of bounds") yields no overlaps. -/
theorem C9_witness :
    ((NewIntervals 0 5).Add ⟨7,2⟩).Intervals.length ≤ 1 ∧
      ((((NewIntervals 0 5).Add ⟨7,2⟩)).Overlapped).1 = [] :=
  ⟨by decide, C9_overlapped_small ((NewIntervals 0 5).Add ⟨7,2⟩) (by decide)⟩

theorem envLowUpdate_le (e l : Int) : envLowUpdate e l ≤ e := by
  unfold envLowUpdate; split <;> omega

theorem envLowUpdate_le_arg (e l : Int) : envLowUpdate e l ≤ l := by
  unfold envLowUpdate; split <;> omega

theorem le_envHighUpdate (e h : Int) : e ≤ envHighUpdate e h := by
  unfold envHighUpdate; split <;> omega

theorem arg_le_envHighUpdate (e h : Int) : h ≤ envHighUpdate e h := by
  unfold envHighUpdate; split <;> omega

theorem overlappedLoop_wellFormed (l : List Interval) :
    ∀ eL eH : Int, eL ≤ eH → (∀ x ∈ l, wellFormed x) →
      ∀ o ∈ overlappedLoop eL eH l, wellFormed o := by
  induction l with
  | nil => simp [overlappedLoop]
  | cons a rest ih =>
    intro eL eH hEnv hwf o ho
    have hwfa : a.Low ≤ a.High := hwf a (by simp)
    simp only [overlappedLoop, List.mem_append] at ho
    rcases ho with ho | ho
    · by_cases hc : ((inBetweenInclusive eL a.Low a.High || inBetweenInclusive a.Low eL eH) ||
        (inBetweenInclusive eH a.Low a.High || inBetweenInclusive a.High eL eH)) = true
      · rw [if_pos hc] at ho
        simp only [List.mem_singleton] at ho
        subst ho
        simp only [inBetweenInclusive, Bool.or_eq_true, Bool.and_eq_true,
          decide_eq_true_eq] at hc
        show max a.Low eL ≤ min a.High eH
        omega
      · rw [if_neg hc] at ho
        simp at ho
    · exact ih (envLowUpdate eL a.Low) (envHighUpdate eH a.High)
        (le_trans (envLowUpdate_le eL a.Low) (le_trans hEnv (le_envHighUpdate eH a.High)))
        (fun x hx => hwf x (by simp [hx])) o ho

/-- C10: on a collection whose intervals all satisfy `low <= high`, every
interval returned by `Overlapped()` also satisfies `low <= high`: the emitted
intersection `[max(low, envLow), min(high, envHigh)]` of the current interval
with the running envelope is never inverted. -/
theorem C10_overlapped_wellFormed (c : intervals)
    (hwf : ∀ i ∈ c.Intervals, wellFormed i) :
    ∀ o ∈ (c.Overlapped).1, wellFormed o := by
  intro o ho
  have hmem : ∀ x ∈ (c.Sort).Intervals, wellFormed x := fun x hx =>
    hwf x ((sort_intervals_perm c).mem_iff.mp hx)
  have hov : (c.Overlapped).1 = overlappedWalk ((c.Sort).Intervals) := rfl
  rw [hov] at ho
  match hl : (c.Sort).Intervals with
  | [] => rw [hl] at ho; simp [overlappedWalk] at ho
  | first :: rest =>
    rw [hl] at ho hmem
    have hwff : first.Low ≤ first.High := hmem first (by simp)
    refine overlappedLoop_wellFormed rest _ _ ?_ (fun x hx => hmem x (by simp [hx])) o ho
    calc envLowUpdate 9223372036854775807 first.Low ≤ first.Low :=
        envLowUpdate_le_arg _ _
      _ ≤ first.High := hwff
      _ ≤ envHighUpdate (-9223372036854775808) first.High := arg_le_envHighUpdate _ _

/-- C10 witness: the collection over `[0,40]` with intervals `[5,10]`, `[8,15]`
(all well formed) yields the well-formed overlap `[8,10]`. -/
theorem C10_witness :
    (∀ i ∈ (((NewIntervals 0 40).Add ⟨5,10⟩).Add ⟨8,15⟩).Intervals, wellFormed i) ∧
      wellFormed ⟨8,10⟩ :=
  ⟨by decide, C10_overlapped_wellFormed (((NewIntervals 0 40).Add ⟨5,10⟩).Add ⟨8,15⟩)
    (by decide) ⟨8,10⟩ (by decide)⟩

end interval

namespace interval

/-- C6: on every reachable collection state, `Sorted = true` implies `items` is
ordered ascending by `low`; and the flag transitions are exactly: `Add` appends
and sets `Sorted` to `false`, while `Sort` — and hence each of the
sort-dependent queries `Gaps`, `Overlapped`, `Print` — sets `Sorted` to `true`
on exit. -/
theorem C6_sorted_flag_invariant (c : intervals) (h : Reachable c) :
    (c.Sorted = true → List.Sorted leLow c.Intervals) ∧
    (∀ itvl, (c.Add itvl).Intervals = c.Intervals ++ [itvl] ∧ (c.Add itvl).Sorted = false) ∧
    (c.Sort).Sorted = true ∧ ((c.Gaps).2).Sorted = true ∧
    ((c.Overlapped).2).Sorted = true ∧ ((c.Print).2).Sorted = true :=
  ⟨reachable_sorted_invariant h, fun _ => ⟨rfl, rfl⟩, rfl, rfl, rfl, rfl⟩

/-- C6 witness: on the reachable state reached by `New(0,10)`, `Add([3,4])`,
`Add([1,2])`, `Sort()`: the items are ascending by `low`, a further `Add` turns
the flag off, and `Sort`, `Gaps`, `Overlapped`, `Print` leave it on. -/
theorem C6_witness :
    List.Sorted leLow ((((NewIntervals 0 10).Add ⟨3,4⟩).Add ⟨1,2⟩).Sort).Intervals ∧
    (((((NewIntervals 0 10).Add ⟨3,4⟩).Add ⟨1,2⟩).Sort).Add ⟨5,6⟩).Sorted = false ∧
    ((((((NewIntervals 0 10).Add ⟨3,4⟩).Add ⟨1,2⟩).Sort).Gaps).2).Sorted = true := by
  have h := C6_sorted_flag_invariant ((((NewIntervals 0 10).Add ⟨3,4⟩).Add ⟨1,2⟩).Sort)
    (Reachable.sort _ (Reachable.add _ _ (Reachable.add _ _ (Reachable.new 0 10))))
  exact ⟨h.1 rfl, (h.2.1 ⟨5,6⟩).2, h.2.2.2.1⟩

/-- C7: on every non-empty reachable collection, calling `Sort` twice leaves
`items` in the same sequence as calling it once (the second call sees the flag
set and reorders nothing), and after `Sort` the item sequence is ascending by
`low`. -/
theorem C7_sort_idempotent (c : intervals) (h : Reachable c) (hne : c.Intervals ≠ []) :
    ((c.Sort).Sort).Intervals = (c.Sort).Intervals ∧
      List.Sorted leLow ((c.Sort).Intervals) :=
  ⟨rfl, reachable_sort_sorted h⟩

/-- C7 witness: the collection built by `New(0,10)`, `Add([3,4])`, `Add([1,2])`
is non-empty; sorting twice equals sorting once and the result is ascending. -/
theorem C7_witness :
    (((NewIntervals 0 10).Add ⟨3,4⟩).Add ⟨1,2⟩).Intervals ≠ [] ∧
    (((((NewIntervals 0 10).Add ⟨3,4⟩).Add ⟨1,2⟩).Sort).Sort).Intervals =
      ((((NewIntervals 0 10).Add ⟨3,4⟩).Add ⟨1,2⟩).Sort).Intervals ∧
    List.Sorted leLow ((((NewIntervals 0 10).Add ⟨3,4⟩).Add ⟨1,2⟩).Sort).Intervals := by
  have h := C7_sort_idempotent (((NewIntervals 0 10).Add ⟨3,4⟩).Add ⟨1,2⟩)
    (Reachable.add _ _ (Reachable.add _ _ (Reachable.new 0 10))) (by decide)
  exact ⟨by decide, h.1, h.2⟩

end interval

namespace interval

theorem foldl_add_unsorted (l : List Interval) :
    ∀ c : intervals, c.Sorted = false →
      l.foldl intervals.Add c =
        { Intervals := c.Intervals ++ l, MinLow := c.MinLow, MaxHigh := c.MaxHigh,
          Sorted := false } := by
  induction l with
  | nil =>
    intro c hc
    cases c
    simp_all
  | cons a rest ih =>
    intro c hc
    rw [List.foldl_cons, ih (c.Add a) rfl]
    simp [intervals.Add]

theorem buildFrom_eq (minLow maxHigh : Int) (l : List Interval) :
    buildFrom minLow maxHigh l =
      { Intervals := l, MinLow := minLow, MaxHigh := maxHigh, Sorted := false } := by
  rw [buildFrom, foldl_add_unsorted l (NewIntervals minLow maxHigh) rfl]
  simp [NewIntervals]

theorem sortByLow_eq_of_perm {l1 l2 : List Interval} (hperm : l1.Perm l2)
    (hdistinct : l1.Pairwise (fun a b => a.Low ≠ b.Low)) :
    sortByLow l1 = sortByLow l2 := by
  have hsym : ∀ {a b : Interval}, a.Low ≠ b.Low → b.Low ≠ a.Low := fun h => h.symm
  have p1 : (sortByLow l1).Perm l1 := List.perm_insertionSort leLow l1
  have p2 : (sortByLow l2).Perm l2 := List.perm_insertionSort leLow l2
  have s1 : List.Sorted leLow (sortByLow l1) := List.sorted_insertionSort leLow l1
  have s2 : List.Sorted leLow (sortByLow l2) := List.sorted_insertionSort leLow l2
  have d1 : (sortByLow l1).Pairwise fun a b => a.Low ≠ b.Low :=
    (p1.pairwise_iff fun h => hsym h).mpr hdistinct
  have d2 : (sortByLow l2).Pairwise fun a b => a.Low ≠ b.Low :=
    (p2.pairwise_iff fun h => hsym h).mpr ((hperm.pairwise_iff fun h => hsym h).mp hdistinct)
  have t1 : List.Sorted ltLow (sortByLow l1) :=
    (s1.and d1).imp fun h => lt_of_le_of_ne h.1 h.2
  have t2 : List.Sorted ltLow (sortByLow l2) :=
    (s2.and d2).imp fun h => lt_of_le_of_ne h.1 h.2
  exact List.eq_of_perm_of_sorted ((p1.trans hperm).trans p2.symm) t1 t2

/-- C4 (amended): `Print()` is insertion-order independent whenever the added
intervals have pairwise distinct low bounds: two collections constructed with
the same domain bounds by adding the same multiset of such intervals in any two
orders render identical strings.  (Amended from "the same multiset of
intervals": when two intervals share a low bound the `ByLow` sort leaves them
in insertion order, so the rendered interval list differs between the two
orders — see the counterexample.) -/
theorem C4_print_deterministic (minLow maxHigh : Int) (l1 l2 : List Interval)
    (hperm : l1.Perm l2) (hdistinct : l1.Pairwise (fun a b => a.Low ≠ b.Low)) :
    ((buildFrom minLow maxHigh l1).Print).1 = ((buildFrom minLow maxHigh l2).Print).1 := by
  have key : (buildFrom minLow maxHigh l1).Sort = (buildFrom minLow maxHigh l2).Sort := by
    rw [buildFrom_eq, buildFrom_eq]
    simp only [intervals.Sort]
    rw [sortByLow_eq_of_perm hperm hdistinct]
    simp
  simp only [intervals.Print]
  rw [key]

/-- C4 witness: the two insertion orders of `[1,2]` and `[5,6]` (distinct low
bounds) into a collection on domain `[0,10]` render identical strings. -/
theorem C4_witness :
    ([⟨1,2⟩, ⟨5,6⟩] : List Interval).Perm [⟨5,6⟩, ⟨1,2⟩] ∧
    ([⟨1,2⟩, ⟨5,6⟩] : List Interval).Pairwise (fun a b => a.Low ≠ b.Low) ∧
    ((buildFrom 0 10 [⟨1,2⟩, ⟨5,6⟩]).Print).1 = ((buildFrom 0 10 [⟨5,6⟩, ⟨1,2⟩]).Print).1 :=
  ⟨by decide, by decide,
    C4_print_deterministic 0 10 [⟨1,2⟩, ⟨5,6⟩] [⟨5,6⟩, ⟨1,2⟩] (by decide) (by decide)⟩

end interval

namespace interval

theorem wrapInt64_eq_self {x : Int} (h1 : -9223372036854775808 ≤ x)
    (h2 : x ≤ 9223372036854775807) : wrapInt64 x = x := by
  unfold wrapInt64
  omega

theorem gapsLoop_low_ge (l : List Interval) :
    ∀ (lh mh : Int), -9223372036854775808 ≤ lh →
      (∀ x ∈ l, -9223372036854775808 ≤ x.Low ∧ x.High < 9223372036854775807) →
      (∀ x ∈ l, lh ≤ x.Low) → (∀ x ∈ l, wellFormed x) →
      l.Pairwise (fun a b => a.High < b.Low) →
      ∀ g ∈ gapsLoop mh lh l, lh ≤ g.Low := by
  induction l with
  | nil =>
    intro lh mh _ _ _ _ _ g hg
    simp only [gapsLoop] at hg
    split at hg
    · simp only [List.mem_singleton] at hg
      subst hg
      exact le_refl lh
    · simp at hg
  | cons a rest ih =>
    intro lh mh hlh hrange hlow hwf hch g hg
    have ha : lh ≤ a.Low := hlow a (by simp)
    have hwa : a.Low ≤ a.High := hwf a (by simp)
    have hra := hrange a (by simp)
    have hw : wrapInt64 (a.High + 1) = a.High + 1 :=
      wrapInt64_eq_self (by omega) (by omega)
    simp only [gapsLoop, List.mem_append, hw] at hg
    rcases hg with hg | hg
    · split at hg
      · simp only [List.mem_singleton] at hg
        subst hg
        exact le_refl lh
      · simp at hg
    · have hrec := ih (a.High + 1) mh (by omega)
        (fun x hx => hrange x (by simp [hx]))
        (fun x hx => by have := (List.pairwise_cons.mp hch).1 x hx; omega)
        (fun x hx => hwf x (by simp [hx]))
        (List.pairwise_cons.mp hch).2 g hg
      omega

theorem finalCursor_gt (rest : List Interval) :
    ∀ (a : Interval) (lh : Int),
      -9223372036854775808 ≤ a.Low → a.Low ≤ a.High → a.High < 9223372036854775807 →
      (∀ x ∈ rest, -9223372036854775808 ≤ x.Low ∧ x.High < 9223372036854775807) →
      (∀ x ∈ rest, wellFormed x) →
      (∀ x ∈ rest, a.High < x.Low) → rest.Pairwise (fun x y => x.High < y.Low) →
      a.High < finalCursor lh (a :: rest) := by
  induction rest with
  | nil =>
    intro a lh ha1 ha2 ha3 _ _ _ _
    show a.High < wrapInt64 (a.High + 1)
    rw [wrapInt64_eq_self (by omega) (by omega)]
    omega
  | cons b r ih =>
    intro a lh ha1 ha2 ha3 hrange hwf hgt hch
    have h1 : a.High < b.Low := hgt b (by simp)
    have h2 : b.Low ≤ b.High := hwf b (by simp)
    have hrb := hrange b (by simp)
    have h3 : b.High < finalCursor (wrapInt64 (a.High + 1)) (b :: r) :=
      ih b (wrapInt64 (a.High + 1)) (by omega) h2 (by omega)
        (fun x hx => hrange x (by simp [hx]))
        (fun x hx => hwf x (by simp [hx]))
        (fun x hx => (List.pairwise_cons.mp hch).1 x hx) (List.pairwise_cons.mp hch).2
    have h4 : finalCursor lh (a :: b :: r) = finalCursor (wrapInt64 (a.High + 1)) (b :: r) := rfl
    omega

theorem countP_cover_eq_zero {l : List Interval} {p : Int}
    (h : ∀ x ∈ l, ¬ (x.Low ≤ p ∧ p ≤ x.High)) :
    List.countP (fun i => inBetweenInclusive p i.Low i.High) l = 0 := by
  refine List.countP_eq_zero.mpr ?_
  intro a ha hcontra
  simp only [inBetweenInclusive, Bool.and_eq_true, decide_eq_true_eq] at hcontra
  exact h a ha hcontra

theorem gapsLoop_count (l : List Interval) :
    ∀ (lh mh p : Int), -9223372036854775808 ≤ lh →
      (∀ x ∈ l, -9223372036854775808 ≤ x.Low ∧ x.High < 9223372036854775807) →
      lh ≤ p → p ≤ mh →
      (∀ x ∈ l, wellFormed x) → l.Pairwise (fun a b => a.High < b.Low) →
      coverCount l p + coverCount (gapsLoop mh lh l) p =
        if finalCursor lh l = mh ∧ p = mh then 0 else 1 := by
  induction l with
  | nil =>
    intro lh mh p _ _ hlp hpm _ _
    simp only [coverCount, List.countP_nil, gapsLoop, finalCursor, Nat.zero_add]
    by_cases h : lh < mh
    · rw [if_pos h, if_neg (by rintro ⟨h1, h2⟩; omega)]
      have hc : (inBetweenInclusive p lh mh) = true := by
        simp only [inBetweenInclusive, Bool.and_eq_true, decide_eq_true_eq]
        exact ⟨hlp, hpm⟩
      simp [List.countP_cons, hc]
    · rw [if_neg h, if_pos (by omega)]
      simp
  | cons a rest ih =>
    intro lh mh p hlh hrange hlp hpm hwf hch
    have hwa : a.Low ≤ a.High := hwf a (by simp)
    have hra := hrange a (by simp)
    have hranger : ∀ x ∈ rest, -9223372036854775808 ≤ x.Low ∧ x.High < 9223372036854775807 :=
      fun x hx => hrange x (by simp [hx])
    have hwfr : ∀ x ∈ rest, wellFormed x := fun x hx => hwf x (by simp [hx])
    have hchh : ∀ x ∈ rest, a.High < x.Low := (List.pairwise_cons.mp hch).1
    have hcht := (List.pairwise_cons.mp hch).2
    have hw : wrapInt64 (a.High + 1) = a.High + 1 :=
      wrapInt64_eq_self (by omega) (by omega)
    have hfc : finalCursor lh (a :: rest) = finalCursor (a.High + 1) rest := by
      rw [show finalCursor lh (a :: rest) = finalCursor (wrapInt64 (a.High + 1)) rest from rfl,
        hw]
    have hfcgt : a.High < finalCursor lh (a :: rest) :=
      finalCursor_gt rest a lh (by omega) hwa (by omega) hranger hwfr hchh hcht
    simp only [coverCount, gapsLoop, List.countP_append, List.countP_cons, hw] at ih ⊢
    rw [hfc]
    by_cases hcase : a.High < p
    · -- the point lies beyond the current interval: recurse
      have hrec := ih (a.High + 1) mh p (by omega) hranger (by omega) hpm hwfr hcht
      have h1 : (inBetweenInclusive p a.Low a.High) = false := by
        simp only [inBetweenInclusive, Bool.and_eq_true, decide_eq_true_eq,
          Bool.and_eq_false_iff, decide_eq_false_iff_not]
        omega
      have h2 : List.countP (fun i => inBetweenInclusive p i.Low i.High)
          (if a.Low > lh then
            [({ Low := lh, High := wrapInt64 (a.Low - 1) } : Interval)] else []) = 0 := by
        by_cases hgap : a.Low > lh
        · rw [if_pos hgap, wrapInt64_eq_self (by omega) (by omega)]
          refine countP_cover_eq_zero ?_
          intro x hx
          simp only [List.mem_singleton] at hx
          subst hx
          simp only []
          omega
        · rw [if_neg hgap]
          simp
      rw [h1, h2]
      simp only [Bool.false_eq_true, if_false, Nat.add_zero, Nat.zero_add]
      omega
    · -- the point lies at or before the current interval's high end
      push_neg at hcase
      have hcondfalse : ¬ (finalCursor (a.High + 1) rest = mh ∧ p = mh) := by
        rw [hfc] at hfcgt
        rintro ⟨hc1, hc2⟩
        omega
      rw [if_neg hcondfalse]
      have hrest0 : List.countP (fun i => inBetweenInclusive p i.Low i.High) rest = 0 :=
        countP_cover_eq_zero fun x hx hcon => by
          have := hchh x hx
          omega
      have hrec0 : List.countP (fun i => inBetweenInclusive p i.Low i.High)
          (gapsLoop mh (a.High + 1) rest) = 0 :=
        countP_cover_eq_zero fun g hg hcon => by
          have := gapsLoop_low_ge rest (a.High + 1) mh (by omega) hranger
            (fun x hx => by have := hchh x hx; omega) hwfr hcht g hg
          omega
      rw [hrest0, hrec0]
      by_cases hin : a.Low ≤ p
      · -- covered by the current interval
        have h1 : (inBetweenInclusive p a.Low a.High) = true := by
          simp only [inBetweenInclusive, Bool.and_eq_true, decide_eq_true_eq]
          exact ⟨hin, hcase⟩
        have h2 : List.countP (fun i => inBetweenInclusive p i.Low i.High)
            (if a.Low > lh then
              [({ Low := lh, High := wrapInt64 (a.Low - 1) } : Interval)] else []) = 0 := by
          by_cases hgap : a.Low > lh
          · rw [if_pos hgap, wrapInt64_eq_self (by omega) (by omega)]
            refine countP_cover_eq_zero ?_
            intro x hx
            simp only [List.mem_singleton] at hx
            subst hx
            simp only []
            omega
          · rw [if_neg hgap]
            simp
        rw [h1, h2]
        simp
      · -- covered by the gap emitted just before the current interval
        push_neg at hin
        have h1 : (inBetweenInclusive p a.Low a.High) = false := by
          simp only [inBetweenInclusive, Bool.and_eq_false_iff, decide_eq_false_iff_not]
          omega
        have hgap : a.Low > lh := by omega
        have h2 : List.countP (fun i => inBetweenInclusive p i.Low i.High)
            (if a.Low > lh then
              [({ Low := lh, High := wrapInt64 (a.Low - 1) } : Interval)] else []) = 1 := by
          rw [if_pos hgap, wrapInt64_eq_self (by omega) (by omega)]
          have hc : (inBetweenInclusive p lh (a.Low - 1)) = true := by
            simp only [inBetweenInclusive, Bool.and_eq_true, decide_eq_true_eq]
            omega
          simp [List.countP_cons, hc]
        rw [h1, h2]
        simp

end interval

namespace interval

/-- C1 (amended): for every reachable collection whose domain bounds and
interval bounds are representable `int64` values (the type of Go's `int`),
whose intervals each satisfy `low <= high` and `high ≠ math.MaxInt64` (so the
wrapping cursor increment `high + 1` stays in range), are pairwise
non-overlapping and non-nested, and whose gap walk ends with its cursor
different from `maxHigh`, the union of the intervals in `items` and the
intervals returned by `Gaps()` exactly tiles the domain `[minLow, maxHigh]`:
every domain point lies in exactly one interval of the combined list.
(Amended: the cursor restriction is forced by the trailing-gap test
`lastHigh < maxHigh`, which leaves the single point `maxHigh` uncovered when
the cursor lands exactly on it; well-formedness is forced because a malformed
interval produces overlapping gap output; and `high ≠ MaxInt64` is forced
because at `high = MaxInt64` the `int64` cursor wraps to `MinInt64` and the
trailing gap double-covers the domain — see the three-part counterexample.
The representability bounds merely encode the `int64` type and exclude no Go
value.) -/
theorem C1_gap_tiling (c : intervals) (hr : Reachable c)
    (hminlow : int64Repr c.MinLow) (hmaxhigh : int64Repr c.MaxHigh)
    (hbounds : ∀ i ∈ c.Intervals, int64Repr i.Low ∧ int64Repr i.High)
    (hnowrap : ∀ i ∈ c.Intervals, i.High ≠ 9223372036854775807)
    (hwf : ∀ i ∈ c.Intervals, wellFormed i)
    (hno : c.Intervals.Pairwise fun a b => ¬ overlapsI a b)
    (hnn : c.Intervals.Pairwise fun a b => ¬ nestedI a b)
    (hcursor : finalCursor c.MinLow ((c.Sort).Intervals) ≠ c.MaxHigh) :
    ∀ p : Int, c.MinLow ≤ p → p ≤ c.MaxHigh →
      coverCount ((c.Gaps).2.Intervals ++ (c.Gaps).1) p = 1 := by
  intro p h1 h2
  have hperm := sort_intervals_perm c
  have hwf' : ∀ x ∈ (c.Sort).Intervals, wellFormed x := fun x hx =>
    hwf x (hperm.mem_iff.mp hx)
  have hrange : ∀ x ∈ (c.Sort).Intervals,
      -9223372036854775808 ≤ x.Low ∧ x.High < 9223372036854775807 := by
    intro x hx
    have hb := hbounds x (hperm.mem_iff.mp hx)
    have hn := hnowrap x (hperm.mem_iff.mp hx)
    simp only [int64Repr] at hb
    exact ⟨hb.1.1, lt_of_le_of_ne hb.2.2 hn⟩
  have hlh : -9223372036854775808 ≤ c.MinLow := hminlow.1
  have hsorted : List.Sorted leLow ((c.Sort).Intervals) := reachable_sort_sorted hr
  have hsymm : ∀ {a b : Interval}, ¬ overlapsI a b → ¬ overlapsI b a := by
    intro a b h hba
    rcases hba with ⟨q, hq1, hq2⟩
    exact h ⟨q, hq2, hq1⟩
  have hno' : (c.Sort).Intervals.Pairwise fun a b => ¬ overlapsI a b :=
    (hperm.pairwise_iff fun h => hsymm h).mpr hno
  have hch : (c.Sort).Intervals.Pairwise fun a b => a.High < b.Low := by
    refine (hsorted.and hno').imp_of_mem ?_
    intro a b ha hb hab
    by_contra hcon
    push_neg at hcon
    exact hab.2 ⟨b.Low, ⟨hab.1, hcon⟩, le_refl b.Low, hwf' b hb⟩
  have hmain := gapsLoop_count ((c.Sort).Intervals) c.MinLow c.MaxHigh p hlh hrange h1 h2
    hwf' hch
  rw [if_neg (fun hcond => hcursor hcond.1)] at hmain
  show coverCount ((c.Sort).Intervals ++ gapsLoop c.MaxHigh c.MinLow ((c.Sort).Intervals)) p = 1
  rw [coverCount, List.countP_append]
  exact hmain

/-- C1 witness: the reachable collection on domain `[0,40]` holding the
well-formed, representable, pairwise disjoint, non-nested intervals `[5,10]`
and `[30,35]` (no bound at `MaxInt64`, final cursor `36 ≠ 40`) covers the
domain point `7` exactly once by `items ++ Gaps()`. -/
theorem C1_witness :
    (∀ i ∈ (((NewIntervals 0 40).Add ⟨5,10⟩).Add ⟨30,35⟩).Intervals, wellFormed i) ∧
    (∀ i ∈ (((NewIntervals 0 40).Add ⟨5,10⟩).Add ⟨30,35⟩).Intervals,
      int64Repr i.Low ∧ int64Repr i.High) ∧
    finalCursor 0 (((((NewIntervals 0 40).Add ⟨5,10⟩).Add ⟨30,35⟩)).Sort).Intervals ≠ 40 ∧
    (0 : Int) ≤ 7 ∧ (7 : Int) ≤ 40 ∧
    coverCount (((((NewIntervals 0 40).Add ⟨5,10⟩).Add ⟨30,35⟩).Gaps).2.Intervals ++
      ((((NewIntervals 0 40).Add ⟨5,10⟩).Add ⟨30,35⟩).Gaps).1) 7 = 1 := by
  have hno : ([(⟨5,10⟩ : Interval), ⟨30,35⟩]).Pairwise fun a b => ¬ overlapsI a b := by
    refine List.Pairwise.cons ?_ (List.pairwise_singleton _ _)
    intro b hb
    simp only [List.mem_singleton] at hb
    subst hb
    rintro ⟨q, hq1, hq2⟩
    simp only [containsPt] at hq1 hq2
    omega
  refine ⟨by decide, by decide, by decide, by decide, by decide, ?_⟩
  exact C1_gap_tiling (((NewIntervals 0 40).Add ⟨5,10⟩).Add ⟨30,35⟩)
    (Reachable.add _ _ (Reachable.add _ _ (Reachable.new 0 40)))
    (by decide) (by decide) (by decide) (by decide)
    (by decide) hno (by decide) (by decide) 7 (by decide) (by decide)

end interval

namespace interval

theorem printItemsLoop_split (ovl : List Interval) (l : List Interval) :
    ∀ (isFirst : Bool) (index : Int),
      printItemsLoop ovl isFirst index l =
        (intervalListText isFirst l, graphWalk ovl l index) := by
  induction l with
  | nil =>
    intro isFirst index
    rfl
  | cons a rest ih =>
    intro isFirst index
    simp only [printItemsLoop, graphWalk, intervalListText, ih]

/-- C5 (amended): `Print()` renders, in this order: the header naming the
domain bounds, the legend, the interval list, the gap list, the overlap list,
then the axis line showing `minLow` left-aligned and `maxHigh` right-aligned
(padded by `maxHigh + numSeparators - 2 - minLow` spaces), and finally —
after the axis line, not before it as the claim states — the framed
character-per-domain-unit graph line.  (Amended: the code assembles
`"\n\n" ++ axisLegend ++ "\n╠" ++ graph ++ "╣"`, so the axis line precedes the
graph line; the claimed order of the remaining parts is as stated.) -/
theorem C5_print_layout (c : intervals) :
    (c.Print).1 =
      "\n" ++
      ("\n==================================\n SUMMARY (minLow=" ++ toString c.MinLow ++
        ", maxHigh=" ++ toString c.MaxHigh ++ ")\n==================================") ++
      ("\n • Legend: " ++ emptySymbol ++ " (empty), " ++ fullSymbol ++ " (full), " ++
        overlapSymbol ++ " (overlap)") ++
      ("\n • Intervals: " ++ intervalListText true ((c.Sort).Intervals)) ++
      ("\n • Gaps: " ++ intervalListText true ((c.Gaps).1)) ++
      ("\n • Overlapped: " ++ intervalListText true ((c.Overlapped).1)) ++
      ("\n\n" ++
        (" " ++ toString c.MinLow ++
          stringRepeat " "
            (c.MaxHigh +
              ((graphWalk ((c.Overlapped).1) ((c.Sort).Intervals) c.MinLow).2.2 : Int) -
              2 - c.MinLow).toNat ++
          toString c.MaxHigh) ++
        "\n╠" ++
        ((graphWalk ((c.Overlapped).1) ((c.Sort).Intervals) c.MinLow).1 ++
          stringRepeat emptySymbol
            (c.MaxHigh -
              (graphWalk ((c.Overlapped).1) ((c.Sort).Intervals) c.MinLow).2.1).toNat) ++
        "╣") ++
      "\n" := by
  simp only [intervals.Print, printItemsLoop_split]
  rfl

end interval
